import Mathlib

/-!
Shallow embedding of `src/folder_lock.py` (class `FolderLock`, 458 lines).

Modelling conventions, stated once:

* Paths are opaque strings.  Every operation of the source first canonicalises its
  argument with `Path(folder_path).absolute()`; the model therefore receives paths
  that are already canonical absolute strings.
* Interactive input (`getpass.getpass`, `input`) and clock reads (`datetime.now`)
  are explicit parameters of the corresponding functions.
* The external PBKDF2 primitive of `hashlib` and the per-item environmental move
  failures that the source catches (`except Exception`) are parameters as well:
  `Pbkdf2` and a failure oracle `mf : String -> Bool` on item names.
* Python dictionaries (the JSON registry, insertion ordered) are association lists
  with unique keys; JSON files on disk are `Option` values in `Config`, `none`
  modelling a missing file.
* A function that can raise an uncaught exception returns `Except String _`;
  `Except.error` is the uncaught exception (the operation dies with a message),
  while `Except.ok (w, false)` models the printed-error `return False` paths.
-/

/-- Abstract interface of the library call
`hashlib.pbkdf2_hmac("sha256", password.encode("utf-8"), salt.encode("utf-8"), n)`
used at lines 52-57: arguments are the UTF-8 password, the UTF-8 salt text and the
iteration count; the result is the hex digest string (`hash_obj.hex()`).  The Python
code delegates to an external library here, so the primitive is a parameter of the
development. -/
abbrev Pbkdf2 := String → String → Nat → String

/-- Association-list lookup; models Python dict access keyed by strings. -/
def lookupA {α : Type} : List (String × α) → String → Option α
  | [], _ => none
  | kv :: rest, k => if kv.1 = k then some kv.2 else lookupA rest k

/-- Models the Python membership test `k in d` on a dict. -/
def containsKey {α : Type} (l : List (String × α)) (k : String) : Bool :=
  (lookupA l k).isSome

/-- Models Python `del d[k]` on a dict with unique keys. -/
def removeKey {α : Type} : List (String × α) → String → List (String × α)
  | [], _ => []
  | kv :: rest, k => if kv.1 = k then removeKey rest k else kv :: removeKey rest k

/-- Boolean membership in a list of strings. -/
def memb (x : String) : List String → Bool
  | [] => false
  | y :: ys => if y = x then true else memb x ys

/-- Remove the first occurrence of a name from a list of names. -/
def eraseFirst : List String → String → List String
  | [], _ => []
  | y :: ys, x => if y = x then ys else y :: eraseFirst ys x

/-- Credential record persisted as `admin_hash.json` / `user_hash.json`
(lines 59-62): a salt and a hash, both hex strings. -/
structure Credential where
  salt : String
  hash : String
deriving DecidableEq

/-- Registry value stored under a folder key (lines 205-209). -/
structure LockEntry where
  hidden_path : String
  locked_at : String
  items_count : Nat
deriving DecidableEq

/-- The persisted content of `lock_status.json`: a mapping from canonical absolute
folder path to its `LockEntry`, insertion ordered like a Python dict. -/
abbrev Registry := List (String × LockEntry)

/-- Filesystem model.  `dirs` maps each existing directory (canonical absolute path)
to the names of its direct children; a child is an opaque name (it may itself be a
file or a whole subtree; `shutil.move` carries it wholesale, so nothing below the
moved name needs to be tracked for the properties at hand).  `files` lists the paths
that exist as non-directories. -/
structure FS where
  dirs : List (String × List String)
  files : List String
deriving DecidableEq

/-- `p.is_dir()` / the path having been created as a directory. -/
def FS.isDir (fs : FS) (p : String) : Bool := (lookupA fs.dirs p).isSome

/-- Direct children of a directory, in creation order (`p.iterdir()`n materialised at
the start of a loop). -/
def FS.childrenOf (fs : FS) (p : String) : List String := (lookupA fs.dirs p).getD []

/-- `p.exists()`. -/
def FS.existsPath (fs : FS) (p : String) : Bool := fs.isDir p || memb p fs.files

/-- `Path.mkdir()` on a path known not to exist: append a fresh empty directory. -/
def FS.mkdir (fs : FS) (p : String) : FS := { fs with dirs := fs.dirs ++ [(p, [])] }

/-- `Path.mkdir` with the exist-ok flag set (lines 245 and 363): no-op when the path
is already a directory, raises (modelled `none`) when it exists as a non-directory,
creates it otherwise. -/
def FS.mkdirExistOk (fs : FS) (p : String) : Option FS :=
  if fs.isDir p then some fs
  else if memb p fs.files then none
  else some (fs.mkdir p)

/-- `shutil.move(str(item), str(dst))` for a direct child `item` of `src`: the name
disappears from `src` and is appended to the children of `dst`. -/
def FS.moveItem (fs : FS) (src dst item : String) : FS :=
  { fs with dirs := fs.dirs.map (fun kv =>
      (kv.1,
        if kv.1 = src then eraseFirst kv.2 item
        else if kv.1 = dst then kv.2 ++ [item]
        else kv.2)) }

/-- `p.rmdir()` once known to succeed: the directory entry disappears. -/
def FS.rmdir (fs : FS) (p : String) : FS := { fs with dirs := removeKey fs.dirs p }

/-- Contents of the three config files of lines 38-40; `none` models a missing file. -/
structure Config where
  admin_hash_file : Option Credential
  user_hash_file : Option Credential
  lock_status_file : Option Registry
deriving DecidableEq

/-- Whole modelled state: user filesystem plus the private config store. -/
structure World where
  fs : FS
  config : Config
deriving DecidableEq

/-- Lower-case hex digit of a value below 16, as produced by `bytes.hex()`. -/
def hexDigit (n : Nat) : Char := if n < 10 then Char.ofNat (48 + n) else Char.ofNat (87 + n)

/-- Hex encoding of one byte. -/
def byteToHex (b : Nat) : String := String.mk [hexDigit (b % 256 / 16), hexDigit (b % 256 % 16)]

/-- Hex encoding of a byte string, as in `bytes.hex()`. -/
def bytesToHex : List Nat → String
  | [] => ""
  | b :: bs => byteToHex b ++ bytesToHex bs

/-- `generate_salt` (lines 42-44): `os.urandom(32).hex()`.  The 32 random bytes drawn
from the operating system are the explicit parameter `urandom32`. -/
def generate_salt (urandom32 : List Nat) : String := bytesToHex urandom32

/-- `hash_password` (lines 46-62) for an explicitly supplied salt: PBKDF2-HMAC-SHA256
over the UTF-8 password and the UTF-8 salt text at 100000 iterations, packaged with
the salt.  (When the source is called without a salt it first draws one with
`generate_salt`; the callers below pass that salt explicitly.) -/
def hash_password (pb : Pbkdf2) (password salt : String) : Credential :=
  { salt := salt, hash := pb password salt 100000 }

/-- `verify_password` (lines 64-67): recompute with the stored salt and compare the
hex digests with ordinary equality. -/
def verify_password (pb : Pbkdf2) (password : String) (stored : Credential) : Bool :=
  decide ((hash_password pb password stored.salt).hash = stored.hash)

/-- `authenticate_user` (lines 126-141); `entered` is the getpass input.  Returns
false both when `user_hash.json` is missing and when the password is wrong. -/
def authenticate_user (pb : Pbkdf2) (cfg : Config) (entered : String) : Bool :=
  match cfg.user_hash_file with
  | none => false
  | some stored => verify_password pb entered stored

/-- `authenticate_admin` (lines 143-159), same shape against `admin_hash.json`. -/
def authenticate_admin (pb : Pbkdf2) (cfg : Config) (entered : String) : Bool :=
  match cfg.admin_hash_file with
  | none => false
  | some stored => verify_password pb entered stored

/-- `initial_setup` (lines 73-124).  The interactive loops re-prompt until the two
entries match and have length at least 6, so the model receives the finally accepted
passwords; the fresh salts drawn inside `hash_password` are explicit parameters.
When `admin_hash.json` exists the function reports already configured and returns
False without touching anything; otherwise it writes both credential files and an
empty registry, whatever was there before. -/
def initial_setup (pb : Pbkdf2) (w : World)
    (admin_pass admin_salt user_pass user_salt : String) : World × Bool :=
  match w.config.admin_hash_file with
  | some _ => (w, false)
  | none =>
      ({ w with config :=
          { admin_hash_file := some (hash_password pb admin_pass admin_salt)
            user_hash_file := some (hash_password pb user_pass user_salt)
            lock_status_file := some [] } }, true)

/-- `change_user_password` (lines 272-293): overwrite `user_hash.json` with the hash
of the accepted new password under a fresh salt. -/
def change_user_password (pb : Pbkdf2) (w : World) (new_pass new_salt : String) : World :=
  { w with config :=
      { w.config with user_hash_file := some (hash_password pb new_pass new_salt) } }

/-- `change_admin_password` (lines 295-316). -/
def change_admin_password (pb : Pbkdf2) (w : World) (new_pass new_salt : String) : World :=
  { w with config :=
      { w.config with admin_hash_file := some (hash_password pb new_pass new_salt) } }

/-- Models `self.hidden_dir` of line 23: a constant absolute path private to the
tool, below the script directory. -/
def hidden_dir : String := "/opt/folder_lock/.config/.locked_data"

/-- `folder.name` of pathlib: the last path component, that is the characters after
the final slash of the canonical absolute path. -/
def baseName (p : String) : String :=
  String.mk ((p.data.reverse.takeWhile (fun c => ¬ (c = '/'))).reverse)

/-- Vault directory chosen by `lock_folder` (lines 190-192): the base name of the
folder plus a timestamp suffix, below `hidden_dir`. -/
def hiddenPathFor (folder timestamp : String) : String :=
  hidden_dir ++ "/" ++ baseName folder ++ "_" ++ timestamp

/-- Message of the uncaught exception raised by `open(path, "r")` on a missing file. -/
def errFileNotFound : String := "FileNotFoundError"

/-- Message of the uncaught exception raised by `Path.mkdir` on an existing path. -/
def errFileExists : String := "FileExistsError"

/-- Message of the uncaught exception raised by `iterdir` on a non-directory. -/
def errNotADirectory : String := "NotADirectoryError"

/-- The per-item move loops of `lock_folder` (lines 197-202) and `unlock_folder`
(lines 248-254): each move sits in its own try block, so a failing move is reported
as a warning and the loop continues with the next item.  A move fails when the
environment makes it fail (`mf`) or when the destination already holds an entry of
the same name.  Returns the filesystem and the number of items moved. -/
def moveItemsBestEffort (mf : String → Bool) (fs : FS) (src dst : String) :
    List String → FS × Nat
  | [] => (fs, 0)
  | i :: rest =>
      if mf i || memb i (fs.childrenOf dst) then
        moveItemsBestEffort mf fs src dst rest
      else
        ((moveItemsBestEffort mf (fs.moveItem src dst i) src dst rest).1,
         (moveItemsBestEffort mf (fs.moveItem src dst i) src dst rest).2 + 1)

/-- `lock_folder` (lines 161-216).  `entered` models the getpass input and
`timestamp` the `datetime.now()` reads (the vault-name stamp and the recorded
`locked_at`, conflated into one value since nothing depends on their difference).
Order of the source: existence check, directory check, user authentication, registry
read (raises when the file is missing), already-locked check, vault mkdir (raises on
a collision), best-effort move of every child, registry insert, registry write. -/
def lock_folder (pb : Pbkdf2) (mf : String → Bool) (w : World)
    (folder_path entered timestamp : String) : Except String (World × Bool) :=
  let folder := folder_path
  if ¬ w.fs.existsPath folder then .ok (w, false)
  else if ¬ w.fs.isDir folder then .ok (w, false)
  else if ¬ authenticate_user pb w.config entered then .ok (w, false)
  else
    match w.config.lock_status_file with
    | none => .error errFileNotFound
    | some lock_status =>
        if containsKey lock_status folder then .ok (w, false)
        else
          let hidden_path := hiddenPathFor folder timestamp
          if w.fs.existsPath hidden_path then .error errFileExists
          else
            let fs0 := w.fs.mkdir hidden_path
            let r := moveItemsBestEffort mf fs0 folder hidden_path (fs0.childrenOf folder)
            let entry : LockEntry :=
              { hidden_path := hidden_path, locked_at := timestamp, items_count := r.2 }
            .ok ({ fs := r.1,
                   config := { w.config with
                     lock_status_file := some (lock_status ++ [(folder, entry)]) } }, true)

/-- `unlock_folder` (lines 218-270).  Order of the source: user authentication,
registry read (raises when the file is missing), locked check, vault existence check
(printed error, nothing touched), recreate the folder if needed (raises when the
path exists as a file), best-effort move of every vault entry back, swallowed rmdir
of the vault, registry delete, registry write. -/
def unlock_folder (pb : Pbkdf2) (mf : String → Bool) (w : World)
    (folder_path entered : String) : Except String (World × Bool) :=
  let folder := folder_path
  if ¬ authenticate_user pb w.config entered then .ok (w, false)
  else
    match w.config.lock_status_file with
    | none => .error errFileNotFound
    | some lock_status =>
        match lookupA lock_status folder with
        | none => .ok (w, false)
        | some info =>
            if ¬ w.fs.existsPath info.hidden_path then .ok (w, false)
            else
              match w.fs.mkdirExistOk folder with
              | none => .error errFileExists
              | some fs0 =>
                  if ¬ fs0.isDir info.hidden_path then .error errNotADirectory
                  else
                    let r := moveItemsBestEffort mf fs0 info.hidden_path folder
                        (fs0.childrenOf info.hidden_path)
                    let fs1 :=
                      if r.1.isDir info.hidden_path
                          && (r.1.childrenOf info.hidden_path).isEmpty
                      then r.1.rmdir info.hidden_path else r.1
                    .ok ({ fs := fs1,
                           config := { w.config with
                             lock_status_file := some (removeKey lock_status folder) } }, true)

/-- `show_lock_status` (lines 318-341): read the registry (uncaught FileNotFoundError
when the file is missing) and render it; read-only, the returned mapping is what is
displayed. -/
def show_lock_status (w : World) : Except String Registry :=
  match w.config.lock_status_file with
  | none => .error errFileNotFound
  | some lock_status => .ok lock_status

/-- Inner move loop of `unlock_all_folders` (lines 365-366).  Unlike lock/unlock this
loop has no per-item try, so the first failing move raises out of the item loop;
items already moved stay moved. -/
def moveAllStrict (mf : String → Bool) (fs : FS) (src dst : String) :
    List String → FS × Bool
  | [] => (fs, true)
  | i :: rest =>
      if mf i || memb i (fs.childrenOf dst) then (fs, false)
      else moveAllStrict mf (fs.moveItem src dst i) src dst rest

/-- Restore phase of the per-entry try block of `unlock_all_folders` (lines
364-368), after the folder has been recreated: iterdir on the vault (raises when it
is a non-directory), the strict move of every vault entry into the folder, then the
rmdir of the vault (raises when it is still non-empty).  The Bool result reports
that no exception was raised; the filesystem result keeps whatever partial moves
happened before an exception. -/
def unlock_all_core (mf : String → Bool) (fs1 : FS) (hp k : String) : FS × Bool :=
  if ¬ fs1.isDir hp then (fs1, false)
  else
    if (moveAllStrict mf fs1 hp k (fs1.childrenOf hp)).2 then
      if (moveAllStrict mf fs1 hp k (fs1.childrenOf hp)).1.isDir hp
          && ((moveAllStrict mf fs1 hp k (fs1.childrenOf hp)).1.childrenOf hp).isEmpty
      then ((moveAllStrict mf fs1 hp k (fs1.childrenOf hp)).1.rmdir hp, true)
      else ((moveAllStrict mf fs1 hp k (fs1.childrenOf hp)).1, false)
    else ((moveAllStrict mf fs1 hp k (fs1.childrenOf hp)).1, false)

/-- Whole body of the per-entry try block of `unlock_all_folders` (lines 358-374):
when the recorded vault exists, recreate the folder (raising when the path exists
as a file), then run the restore phase; when the vault is missing the whole move
block is skipped and the `del` of line 370 still runs, so the entry counts as
processed successfully. -/
def unlock_all_process (mf : String → Bool) (fs : FS) (k : String) (info : LockEntry) :
    FS × Bool :=
  if fs.existsPath info.hidden_path then
    match fs.mkdirExistOk k with
    | none => (fs, false)
    | some fs1 => unlock_all_core mf fs1 info.hidden_path k
  else (fs, true)

/-- The entry loop of `unlock_all_folders` (lines 357-374): iterate over a copy of
the registry, processing each entry in order; an entry stays in the mapping exactly
when its processing raised. -/
def unlockAllLoop (mf : String → Bool) (fs : FS) : Registry → FS × Registry
  | [] => (fs, [])
  | (k, info) :: rest =>
      ((unlockAllLoop mf (unlock_all_process mf fs k info).1 rest).1,
       (if (unlock_all_process mf fs k info).2 then [] else [(k, info)]) ++
         (unlockAllLoop mf (unlock_all_process mf fs k info).1 rest).2)

/-- Models the `confirmation.lower()` call of line 349 character-wise. -/
def toLowerStr (s : String) : String := String.mk (s.data.map Char.toLower)

/-- `unlock_all_folders` (lines 343-379).  `confirmation` is the interactive input;
anything whose lower-casing is not yes cancels.  Then the registry is read (raises
when missing), every entry is processed, and the resulting mapping is written back
exactly once at the end. -/
def unlock_all_folders (mf : String → Bool) (w : World) (confirmation : String) :
    Except String World :=
  if ¬ (toLowerStr confirmation = "yes") then .ok w
  else
    match w.config.lock_status_file with
    | none => .error errFileNotFound
    | some lock_status =>
        let r := unlockAllLoop mf w.fs lock_status
        .ok { fs := r.1, config := { w.config with lock_status_file := some r.2 } }

/-- `admin_mode` (lines 381-393) reaching the unlock-all command: admin
authentication gates the call to `unlock_all_folders`. -/
def admin_unlock_all (pb : Pbkdf2) (mf : String → Bool) (w : World)
    (admin_entered confirmation : String) : Except String World :=
  if authenticate_admin pb w.config admin_entered then unlock_all_folders mf w confirmation
  else .ok w

/-- Sequence of on-disk contents the target file passes through during every
persisted-state write of the source (credential files at lines 112-116 and 290-291
and 313-314, registry at lines 119-120, 211-212, 265-266, 376-377): the source runs
`json.dump` inside `with open(path, "w")`, and opening with mode w first truncates
the target to empty, after which the new serialization is written.  The trace lists
the visible contents: old, truncated, new. -/
def overwrite_write_trace (oldContent newContent : String) : List String :=
  [oldContent, "", newContent]

/-- The atomic-replacement discipline the specification demands of `save`: at every
moment during the write, the content visible on disk is either the complete old
state or the complete new state. -/
def atomicReplace (trace : List String) (oldC newC : String) : Prop :=
  ∀ s ∈ trace, s = oldC ∨ s = newC

/-! Helper lemmas about the association-list and filesystem primitives. -/

theorem lookupA_append_some {α : Type} {l : List (String × α)} {k : String} {v : α}
    (r : List (String × α)) (hl : lookupA l k = some v) :
    lookupA (l ++ r) k = some v := by
  induction l with
  | nil => simp [lookupA] at hl
  | cons kv rest ih =>
      by_cases h : kv.1 = k
      · rw [lookupA, if_pos h] at hl
        rw [List.cons_append, lookupA, if_pos h]
        exact hl
      · rw [lookupA, if_neg h] at hl
        rw [List.cons_append, lookupA, if_neg h]
        exact ih hl

theorem lookupA_append_none {α : Type} {l : List (String × α)} {k : String}
    (r : List (String × α)) (hl : lookupA l k = none) :
    lookupA (l ++ r) k = lookupA r k := by
  induction l with
  | nil => simp
  | cons kv rest ih =>
      by_cases h : kv.1 = k
      · rw [lookupA, if_pos h] at hl
        exact absurd hl (by simp)
      · rw [lookupA, if_neg h] at hl
        rw [List.cons_append, lookupA, if_neg h]
        exact ih hl

theorem lookupA_removeKey_self {α : Type} (l : List (String × α)) (k : String) :
    lookupA (removeKey l k) k = none := by
  induction l with
  | nil => rfl
  | cons kv rest ih =>
      by_cases h : kv.1 = k
      · rw [removeKey, if_pos h]; exact ih
      · rw [removeKey, if_neg h, lookupA, if_neg h]; exact ih

theorem lookupA_removeKey_ne {α : Type} {p k : String} (l : List (String × α))
    (h : p ≠ k) : lookupA (removeKey l k) p = lookupA l p := by
  induction l with
  | nil => rfl
  | cons kv rest ih =>
      by_cases hk : kv.1 = k
      · rw [removeKey, if_pos hk, ih, lookupA,
          if_neg (fun hp => h ((hp.symm.trans hk)))]
      · rw [removeKey, if_neg hk, lookupA, lookupA]
        by_cases hp : kv.1 = p
        · rw [if_pos hp, if_pos hp]
        · rw [if_neg hp, if_neg hp, ih]

theorem memb_append (x : String) (l r : List String) :
    memb x (l ++ r) = (memb x l || memb x r) := by
  induction l with
  | nil => simp [memb]
  | cons y ys ih =>
      by_cases h : y = x
      · simp [memb, h]
      · simp [memb, h, ih]

theorem memb_eq_false_iff (x : String) (l : List String) :
    memb x l = false ↔ x ∉ l := by
  induction l with
  | nil => simp [memb]
  | cons y ys ih =>
      by_cases h : y = x
      · simp [memb, h]
      · simp [memb, h, ih, Ne.symm h]

theorem eraseFirst_head (x : String) (l : List String) :
    eraseFirst (x :: l) x = l := by
  rw [eraseFirst, if_pos rfl]

theorem lookupA_moveItem_aux (src dst item p : String)
    (l : List (String × List String)) :
    lookupA (l.map (fun kv =>
      (kv.1, if kv.1 = src then eraseFirst kv.2 item
             else if kv.1 = dst then kv.2 ++ [item] else kv.2))) p =
    (lookupA l p).map (fun v =>
      if p = src then eraseFirst v item else if p = dst then v ++ [item] else v) := by
  induction l with
  | nil => rfl
  | cons kv rest ih =>
      by_cases h : kv.1 = p
      · simp [lookupA, h]
      · simp [lookupA, h, ih]

theorem moveItem_isDir (fs : FS) (src dst item p : String) :
    (fs.moveItem src dst item).isDir p = fs.isDir p := by
  dsimp only [FS.isDir, FS.moveItem]
  rw [lookupA_moveItem_aux]
  cases lookupA fs.dirs p <;> rfl

theorem moveItem_files (fs : FS) (src dst item : String) :
    (fs.moveItem src dst item).files = fs.files := rfl

theorem moveItem_childrenOf_src (fs : FS) (src dst item : String) :
    (fs.moveItem src dst item).childrenOf src = eraseFirst (fs.childrenOf src) item := by
  dsimp only [FS.childrenOf, FS.moveItem]
  rw [lookupA_moveItem_aux]
  cases lookupA fs.dirs src with
  | none => rfl
  | some v => simp

theorem moveItem_childrenOf_dst (fs : FS) (src dst item : String)
    (hne : dst ≠ src) (hdir : fs.isDir dst = true) :
    (fs.moveItem src dst item).childrenOf dst = fs.childrenOf dst ++ [item] := by
  dsimp only [FS.childrenOf, FS.moveItem]
  rw [lookupA_moveItem_aux]
  cases hl : lookupA fs.dirs dst with
  | none => rw [FS.isDir, hl] at hdir; simp at hdir
  | some v => simp [hl, hne]

theorem moveItem_childrenOf_other (fs : FS) (src dst item p : String)
    (hs : p ≠ src) (hd : p ≠ dst) :
    (fs.moveItem src dst item).childrenOf p = fs.childrenOf p := by
  dsimp only [FS.childrenOf, FS.moveItem]
  rw [lookupA_moveItem_aux]
  cases lookupA fs.dirs p with
  | none => rfl
  | some v => simp [hs, hd]

theorem mkdir_isDir (fs : FS) (k p : String) :
    (fs.mkdir k).isDir p = (fs.isDir p || decide (k = p)) := by
  dsimp only [FS.isDir, FS.mkdir]
  cases hl : lookupA fs.dirs p with
  | some v => rw [lookupA_append_some _ hl]; simp
  | none =>
      rw [lookupA_append_none _ hl]
      by_cases h : k = p
      · simp [lookupA, h]
      · simp [lookupA, h]

theorem mkdir_childrenOf (fs : FS) (k p : String) :
    (fs.mkdir k).childrenOf p = fs.childrenOf p := by
  dsimp only [FS.childrenOf, FS.mkdir]
  cases hl : lookupA fs.dirs p with
  | some v => rw [lookupA_append_some _ hl]
  | none =>
      rw [lookupA_append_none _ hl]
      by_cases h : k = p
      · simp [lookupA, h]
      · simp [lookupA, h]

theorem mkdir_files (fs : FS) (k : String) : (fs.mkdir k).files = fs.files := rfl

theorem rmdir_files (fs : FS) (p : String) : (fs.rmdir p).files = fs.files := rfl

theorem rmdir_isDir_self (fs : FS) (p : String) : (fs.rmdir p).isDir p = false := by
  show (lookupA (removeKey fs.dirs p) p).isSome = false
  rw [lookupA_removeKey_self]
  rfl

theorem rmdir_isDir_ne (fs : FS) {q p : String} (h : q ≠ p) :
    (fs.rmdir p).isDir q = fs.isDir q := by
  show (lookupA (removeKey fs.dirs p) q).isSome = _
  rw [lookupA_removeKey_ne _ h]
  rfl

theorem rmdir_childrenOf_ne (fs : FS) {q p : String} (h : q ≠ p) :
    (fs.rmdir p).childrenOf q = fs.childrenOf q := by
  show (lookupA (removeKey fs.dirs p) q).getD [] = _
  rw [lookupA_removeKey_ne _ h]
  rfl

theorem isDir_existsPath {fs : FS} {p : String} (h : fs.isDir p = true) :
    fs.existsPath p = true := by
  rw [FS.existsPath, h, Bool.true_or]

theorem existsPath_false_isDir {fs : FS} {p : String} (h : fs.existsPath p = false) :
    fs.isDir p = false := by
  rw [FS.existsPath, Bool.or_eq_false_iff] at h
  exact h.1

theorem isDir_false_lookup {fs : FS} {p : String} (h : fs.isDir p = false) :
    lookupA fs.dirs p = none := by
  cases hl : lookupA fs.dirs p with
  | none => rfl
  | some v => rw [FS.isDir, hl] at h; simp at h

theorem isDir_false_childrenOf {fs : FS} {p : String} (h : fs.isDir p = false) :
    fs.childrenOf p = [] := by
  rw [FS.childrenOf, isDir_false_lookup h]
  rfl

theorem containsKey_false_lookup {α : Type} {l : List (String × α)} {k : String}
    (h : containsKey l k = false) : lookupA l k = none := by
  cases hl : lookupA l k with
  | none => rfl
  | some v => rw [containsKey, hl] at h; simp at h

theorem containsKey_removeKey_self {α : Type} (l : List (String × α)) (k : String) :
    containsKey (removeKey l k) k = false := by
  rw [containsKey, lookupA_removeKey_self]
  rfl

theorem moveItemsBestEffort_allFail (mf : String → Bool) (src dst : String) :
    ∀ (items : List String) (fs : FS), (∀ i ∈ items, mf i = true) →
      moveItemsBestEffort mf fs src dst items = (fs, 0)
  | [], _, _ => rfl
  | i :: rest, fs, h => by
      have hi : mf i = true := h i (List.mem_cons_self i rest)
      simp only [moveItemsBestEffort, hi, Bool.true_or, if_true]
      exact moveItemsBestEffort_allFail mf src dst rest fs
        (fun j hj => h j (List.mem_cons_of_mem i hj))

theorem moveItemsBestEffort_ok (mf : String → Bool) (src dst : String) (hne : src ≠ dst) :
    ∀ (items : List String) (fs : FS),
      fs.isDir dst = true →
      fs.childrenOf src = items →
      items.Nodup →
      (∀ i ∈ items, mf i = false) →
      (∀ i ∈ items, memb i (fs.childrenOf dst) = false) →
      (moveItemsBestEffort mf fs src dst items).2 = items.length ∧
      ((moveItemsBestEffort mf fs src dst items).1).childrenOf src = [] ∧
      ((moveItemsBestEffort mf fs src dst items).1).childrenOf dst
        = fs.childrenOf dst ++ items ∧
      (∀ p, p ≠ src → p ≠ dst →
        ((moveItemsBestEffort mf fs src dst items).1).childrenOf p = fs.childrenOf p) ∧
      (∀ p, ((moveItemsBestEffort mf fs src dst items).1).isDir p = fs.isDir p) ∧
      ((moveItemsBestEffort mf fs src dst items).1).files = fs.files
  | [], fs, _, hsrc, _, _, _ =>
      ⟨rfl, hsrc, (List.append_nil _).symm, fun p _ _ => rfl, fun p => rfl, rfl⟩
  | i :: rest, fs, hdir, hsrc, hnodup, hmf, hmemb => by
      have hmfi : mf i = false := hmf i (List.mem_cons_self i rest)
      have hmembi : memb i (fs.childrenOf dst) = false :=
        hmemb i (List.mem_cons_self i rest)
      have hcond : (mf i || memb i (fs.childrenOf dst)) = false := by
        rw [hmfi, hmembi]; rfl
      have hdir2 : (fs.moveItem src dst i).isDir dst = true := by
        rw [moveItem_isDir]; exact hdir
      have hsrc2 : (fs.moveItem src dst i).childrenOf src = rest := by
        rw [moveItem_childrenOf_src, hsrc, eraseFirst_head]
      have hdst2 : (fs.moveItem src dst i).childrenOf dst = fs.childrenOf dst ++ [i] :=
        moveItem_childrenOf_dst fs src dst i (Ne.symm hne) hdir
      have hinot : i ∉ rest := (List.nodup_cons.mp hnodup).1
      have hmemb2 : ∀ j ∈ rest, memb j ((fs.moveItem src dst i).childrenOf dst) = false := by
        intro j hj
        rw [hdst2, memb_append, hmemb j (List.mem_cons_of_mem i hj)]
        have h2 : memb j [i] = false := by
          rw [memb_eq_false_iff]
          intro hji
          rw [List.mem_singleton] at hji
          exact hinot (hji ▸ hj)
        rw [h2]
        rfl
      have ih := moveItemsBestEffort_ok mf src dst hne rest (fs.moveItem src dst i)
        hdir2 hsrc2 (List.nodup_cons.mp hnodup).2
        (fun j hj => hmf j (List.mem_cons_of_mem i hj)) hmemb2
      simp only [moveItemsBestEffort, hcond, Bool.false_eq_true, if_false]
      refine ⟨?_, ih.2.1, ?_, ?_, ?_, ?_⟩
      · rw [ih.1, List.length_cons]
      · rw [ih.2.2.1, hdst2, List.append_assoc, List.singleton_append]
      · intro p hp1 hp2
        rw [ih.2.2.2.1 p hp1 hp2, moveItem_childrenOf_other fs src dst i p hp1 hp2]
      · intro p
        rw [ih.2.2.2.2.1 p, moveItem_isDir]
      · rw [ih.2.2.2.2.2, moveItem_files]

/-- Abbreviation for the filesystem produced by the restore phase of
`unlock_folder` (moves back, then the swallowed rmdir), used to state run lemmas. -/
def unseal_result (mf : String → Bool) (fs0 : FS) (hp dst : String) : FS :=
  if (moveItemsBestEffort mf fs0 hp dst (fs0.childrenOf hp)).1.isDir hp
      && ((moveItemsBestEffort mf fs0 hp dst (fs0.childrenOf hp)).1.childrenOf hp).isEmpty
  then (moveItemsBestEffort mf fs0 hp dst (fs0.childrenOf hp)).1.rmdir hp
  else (moveItemsBestEffort mf fs0 hp dst (fs0.childrenOf hp)).1

theorem unlock_folder_run (pb : Pbkdf2) (mf : String → Bool) (w : World)
    (F pw : String) (cred : Credential) (reg : Registry) (info : LockEntry) (fs0 : FS)
    (hcred : w.config.user_hash_file = some cred)
    (hauth : verify_password pb pw cred = true)
    (hreg : w.config.lock_status_file = some reg)
    (hfind : lookupA reg F = some info)
    (hvex : w.fs.existsPath info.hidden_path = true)
    (hmk : w.fs.mkdirExistOk F = some fs0)
    (hvdir0 : fs0.isDir info.hidden_path = true) :
    unlock_folder pb mf w F pw = Except.ok
      ({ fs := unseal_result mf fs0 info.hidden_path F,
         config := { w.config with lock_status_file := some (removeKey reg F) } },
       true) := by
  simp [unlock_folder, authenticate_user, hcred, hauth, hreg, hfind, hvex, hmk, hvdir0,
    unseal_result]

/-- The registry entry `lock_folder` constructs at lines 205-209, as a function of
the folder, the timestamp and the number of items moved. -/
def mkEntry (F ts : String) (n : Nat) : LockEntry :=
  { hidden_path := hiddenPathFor F ts, locked_at := ts, items_count := n }

theorem lock_folder_success (pb : Pbkdf2) (mf : String → Bool) (w : World)
    (F pw ts : String) (cred : Credential) (reg : Registry) (items : List String)
    (hcred : w.config.user_hash_file = some cred)
    (hauth : verify_password pb pw cred = true)
    (hreg : w.config.lock_status_file = some reg)
    (hnot : containsKey reg F = false)
    (hdir : w.fs.isDir F = true)
    (hitems : w.fs.childrenOf F = items)
    (hnodup : items.Nodup)
    (hmf : ∀ i ∈ items, mf i = false)
    (hfresh : w.fs.existsPath (hiddenPathFor F ts) = false) :
    ∃ fs1 : FS,
      lock_folder pb mf w F pw ts = Except.ok
        ({ fs := fs1, config := { w.config with lock_status_file := some (reg ++
            [(F, mkEntry F ts items.length)]) } }, true) ∧
      fs1.childrenOf F = [] ∧
      fs1.childrenOf (hiddenPathFor F ts) = items ∧
      fs1.isDir (hiddenPathFor F ts) = true ∧
      fs1.isDir F = true ∧
      (∀ p, p ≠ F → p ≠ hiddenPathFor F ts → fs1.childrenOf p = w.fs.childrenOf p) ∧
      fs1.files = w.fs.files := by
  have hex : w.fs.existsPath F = true := isDir_existsPath hdir
  have hvne : F ≠ hiddenPathFor F ts := by
    intro h
    rw [h] at hex
    rw [hex] at hfresh
    simp at hfresh
  have hvdirF : w.fs.isDir (hiddenPathFor F ts) = false := existsPath_false_isDir hfresh
  have h0dirV : (w.fs.mkdir (hiddenPathFor F ts)).isDir (hiddenPathFor F ts) = true := by
    rw [mkdir_isDir, hvdirF]
    simp
  have h0childF : (w.fs.mkdir (hiddenPathFor F ts)).childrenOf F = items := by
    rw [mkdir_childrenOf]
    exact hitems
  have h0childV : (w.fs.mkdir (hiddenPathFor F ts)).childrenOf (hiddenPathFor F ts) = [] := by
    rw [mkdir_childrenOf]
    exact isDir_false_childrenOf hvdirF
  have hmemb : ∀ i ∈ items,
      memb i ((w.fs.mkdir (hiddenPathFor F ts)).childrenOf (hiddenPathFor F ts)) = false := by
    intro i _
    rw [h0childV]
    rfl
  have hseal := moveItemsBestEffort_ok mf F (hiddenPathFor F ts) hvne items
    (w.fs.mkdir (hiddenPathFor F ts)) h0dirV h0childF hnodup hmf hmemb
  refine ⟨(moveItemsBestEffort mf (w.fs.mkdir (hiddenPathFor F ts)) F (hiddenPathFor F ts)
    ((w.fs.mkdir (hiddenPathFor F ts)).childrenOf F)).1, ?_, ?_, ?_, ?_, ?_, ?_, ?_⟩
  · simp only [lock_folder, hex, hdir, authenticate_user, hcred, hauth, hreg, hnot, hfresh,
      Bool.true_eq_false, not_true, not_false_iff, if_false, if_true, ite_false, ite_true]
    rw [h0childF]
    rw [hseal.1]
    simp [mkEntry]
  · rw [h0childF, hseal.2.1]
  · rw [h0childF, hseal.2.2.1, h0childV, List.nil_append]
  · rw [h0childF, hseal.2.2.2.2.1, h0dirV]
  · rw [h0childF, hseal.2.2.2.2.1, mkdir_isDir, hdir]
    simp
  · intro p hp1 hp2
    rw [h0childF, hseal.2.2.2.1 p hp1 hp2, mkdir_childrenOf]
  · rw [h0childF, hseal.2.2.2.2.2, mkdir_files]

theorem unlock_folder_success (pb : Pbkdf2) (mf : String → Bool) (w : World)
    (F pw : String) (cred : Credential) (reg : Registry) (info : LockEntry)
    (items : List String)
    (hcred : w.config.user_hash_file = some cred)
    (hauth : verify_password pb pw cred = true)
    (hreg : w.config.lock_status_file = some reg)
    (hfind : lookupA reg F = some info)
    (hvdir : w.fs.isDir info.hidden_path = true)
    (hFdir : w.fs.isDir F = true)
    (hvne : info.hidden_path ≠ F)
    (hitems : w.fs.childrenOf info.hidden_path = items)
    (hnodup : items.Nodup)
    (hmf : ∀ i ∈ items, mf i = false)
    (hFempty : w.fs.childrenOf F = []) :
    ∃ fs2 : FS,
      unlock_folder pb mf w F pw = Except.ok
        ({ fs := fs2, config := { w.config with
            lock_status_file := some (removeKey reg F) } }, true) ∧
      fs2.childrenOf F = items ∧
      fs2.isDir info.hidden_path = false ∧
      (∀ p, p ≠ F → p ≠ info.hidden_path → fs2.childrenOf p = w.fs.childrenOf p) ∧
      fs2.files = w.fs.files := by
  have hvex : w.fs.existsPath info.hidden_path = true := isDir_existsPath hvdir
  have hmk : w.fs.mkdirExistOk F = some w.fs := by
    rw [FS.mkdirExistOk, if_pos hFdir]
  have hmemb : ∀ i ∈ items, memb i (w.fs.childrenOf F) = false := by
    intro i _
    rw [hFempty]
    rfl
  have hunseal := moveItemsBestEffort_ok mf info.hidden_path F hvne items w.fs
    hFdir hitems hnodup hmf hmemb
  have hrun := unlock_folder_run pb mf w F pw cred reg info w.fs
    hcred hauth hreg hfind hvex hmk hvdir
  have hempty : ((moveItemsBestEffort mf w.fs info.hidden_path F
      (w.fs.childrenOf info.hidden_path)).1.childrenOf info.hidden_path) = [] := by
    rw [hitems]
    exact hunseal.2.1
  have hrm : unseal_result mf w.fs info.hidden_path F
      = (moveItemsBestEffort mf w.fs info.hidden_path F
          (w.fs.childrenOf info.hidden_path)).1.rmdir info.hidden_path := by
    rw [unseal_result, if_pos]
    rw [hempty]
    have hd : (moveItemsBestEffort mf w.fs info.hidden_path F
        (w.fs.childrenOf info.hidden_path)).1.isDir info.hidden_path = true := by
      rw [hitems, hunseal.2.2.2.2.1, hvdir]
    rw [hd]
    rfl
  refine ⟨unseal_result mf w.fs info.hidden_path F, hrun, ?_, ?_, ?_, ?_⟩
  · rw [hrm, rmdir_childrenOf_ne _ (Ne.symm hvne), hitems, hunseal.2.2.1, hFempty,
      List.nil_append]
  · rw [hrm, rmdir_isDir_self]
  · intro p hp1 hp2
    rw [hrm, rmdir_childrenOf_ne _ hp2, hitems, hunseal.2.2.2.1 p hp2 hp1]
  · rw [hrm, rmdir_files, hitems, hunseal.2.2.2.2.2]

/-! Concrete instances used by the closed witnesses and counterexamples. -/

/-- Concrete stand-in for the PBKDF2 primitive that returns the password itself;
injective in the password for a fixed salt. -/
def pbPass : Pbkdf2 := fun password _ _ => password

/-- Concrete stand-in for the PBKDF2 primitive that returns the salt itself;
injective in the salt for a fixed password. -/
def pbSalt : Pbkdf2 := fun _ salt _ => salt

/-- Failure oracle under which every move succeeds. -/
def mfNone : String → Bool := fun _ => false

/-- Failure oracle under which every move fails. -/
def mfAll : String → Bool := fun _ => true

/-- Credential that `pbPass` verifies against the password pw1. -/
def credPw1 : Credential := { salt := "s", hash := "pw1" }

/-- C1: for every directory, locking it (correct user password, not already locked,
fresh vault name, no environmental move failures) and then unlocking it restores
exactly the original child entries, by name and even in order, and the registry
afterwards holds no entry keyed by the canonical absolute path of the directory. -/
theorem lock_unlock_roundtrip (pb : Pbkdf2) (mf : String → Bool) (w : World)
    (F pw ts : String) (cred : Credential) (reg : Registry) (items : List String)
    (hcred : w.config.user_hash_file = some cred)
    (hauth : verify_password pb pw cred = true)
    (hreg : w.config.lock_status_file = some reg)
    (hnot : containsKey reg F = false)
    (hdir : w.fs.isDir F = true)
    (hitems : w.fs.childrenOf F = items)
    (hnodup : items.Nodup)
    (hmf : ∀ i ∈ items, mf i = false)
    (hfresh : w.fs.existsPath (hiddenPathFor F ts) = false) :
    ∃ w1 w2 : World,
      lock_folder pb mf w F pw ts = Except.ok (w1, true) ∧
      unlock_folder pb mf w1 F pw = Except.ok (w2, true) ∧
      w2.fs.childrenOf F = items ∧
      ∃ reg2 : Registry, w2.config.lock_status_file = some reg2 ∧
        containsKey reg2 F = false := by
  obtain ⟨fs1, hlock, hF1, hV1, hVdir1, hFdir1, hframe1, hfiles1⟩ :=
    lock_folder_success pb mf w F pw ts cred reg items hcred hauth hreg hnot hdir hitems
      hnodup hmf hfresh
  have hex : w.fs.existsPath F = true := isDir_existsPath hdir
  have hvne : hiddenPathFor F ts ≠ F := by
    intro h
    rw [h] at hfresh
    rw [hex] at hfresh
    simp at hfresh
  have hfind1 : lookupA (reg ++ [(F, mkEntry F ts items.length)]) F
      = some (mkEntry F ts items.length) := by
    rw [lookupA_append_none _ (containsKey_false_lookup hnot), lookupA, if_pos rfl]
  obtain ⟨fs2, hunlock, hF2, hV2, hframe2, hfiles2⟩ :=
    unlock_folder_success pb mf
      ({ fs := fs1, config := { w.config with lock_status_file := some (reg ++
          [(F, mkEntry F ts items.length)]) } })
      F pw cred (reg ++ [(F, mkEntry F ts items.length)]) (mkEntry F ts items.length)
      items hcred hauth rfl hfind1 hVdir1 hFdir1 hvne hV1 hnodup hmf hF1
  exact ⟨_, _, hlock, hunlock, hF2,
    ⟨removeKey (reg ++ [(F, mkEntry F ts items.length)]) F, rfl,
      containsKey_removeKey_self _ _⟩⟩

/-- World for the round-trip witness: a directory with two entries, the user
credential installed, an empty registry. -/
def wRound : World :=
  { fs := { dirs := [("/home/u/docs", ["a.txt", "b.txt"])], files := [] },
    config := { admin_hash_file := none, user_hash_file := some credPw1,
                lock_status_file := some [] } }

theorem lock_unlock_roundtrip_witness :
    ∃ w1 w2 : World,
      lock_folder pbPass mfNone wRound "/home/u/docs" "pw1" "ts" = Except.ok (w1, true) ∧
      unlock_folder pbPass mfNone w1 "/home/u/docs" "pw1" = Except.ok (w2, true) ∧
      w2.fs.childrenOf "/home/u/docs" = ["a.txt", "b.txt"] ∧
      ∃ reg2 : Registry, w2.config.lock_status_file = some reg2 ∧
        containsKey reg2 "/home/u/docs" = false :=
  lock_unlock_roundtrip pbPass mfNone wRound "/home/u/docs" "pw1" "ts" credPw1 []
    ["a.txt", "b.txt"] rfl rfl rfl rfl rfl rfl (by decide) (fun i _ => rfl) (by decide)

/-- C6: preconditions of lock and abort without mutation.  With the user credential
installed and the registry file readable: a nonexistent path and a non-directory
path are validation failures returning the state unchanged; a wrong user password is
an authentication failure returning the state unchanged; a path already keyed in the
registry is a conflict failure returning the state unchanged; and when all the
checks pass the children are sealed into the fresh vault, one entry is inserted and
the registry is persisted. -/
theorem lock_preconditions (pb : Pbkdf2) (mf : String → Bool) (w : World)
    (F pw ts : String) (cred : Credential) (reg : Registry)
    (hcred : w.config.user_hash_file = some cred)
    (hreg : w.config.lock_status_file = some reg) :
    (w.fs.existsPath F = false → lock_folder pb mf w F pw ts = Except.ok (w, false)) ∧
    (w.fs.isDir F = false → lock_folder pb mf w F pw ts = Except.ok (w, false)) ∧
    (w.fs.isDir F = true → verify_password pb pw cred = false →
      lock_folder pb mf w F pw ts = Except.ok (w, false)) ∧
    (w.fs.isDir F = true → verify_password pb pw cred = true →
      containsKey reg F = true → lock_folder pb mf w F pw ts = Except.ok (w, false)) ∧
    (∀ items : List String, w.fs.isDir F = true → verify_password pb pw cred = true →
      containsKey reg F = false → w.fs.existsPath (hiddenPathFor F ts) = false →
      w.fs.childrenOf F = items → items.Nodup → (∀ i ∈ items, mf i = false) →
      ∃ fs1 : FS,
        lock_folder pb mf w F pw ts = Except.ok
          ({ fs := fs1, config := { w.config with lock_status_file := some (reg ++
              [(F, mkEntry F ts items.length)]) } }, true) ∧
        fs1.childrenOf F = [] ∧
        fs1.childrenOf (hiddenPathFor F ts) = items) := by
  refine ⟨?_, ?_, ?_, ?_, ?_⟩
  · intro h
    simp [lock_folder, h]
  · intro h
    by_cases hex : w.fs.existsPath F = true
    · simp [lock_folder, hex, h]
    · have hex2 : w.fs.existsPath F = false := by
        cases hb : w.fs.existsPath F
        · rfl
        · exact absurd hb hex
      simp [lock_folder, hex2]
  · intro hd hv
    simp [lock_folder, isDir_existsPath hd, hd, authenticate_user, hcred, hv]
  · intro hd hv hc
    simp [lock_folder, isDir_existsPath hd, hd, authenticate_user, hcred, hv, hreg, hc]
  · intro items hd hv hc hfresh hitems hnodup hmf
    obtain ⟨fs1, hlock, hF1, hV1, _, _, _, _⟩ :=
      lock_folder_success pb mf w F pw ts cred reg items hcred hv hreg hc hd hitems
        hnodup hmf hfresh
    exact ⟨fs1, hlock, hF1, hV1⟩

/-- World for the lock-preconditions witness: same shape as the round-trip world
plus a plain file at a separate path. -/
def wPre : World :=
  { fs := { dirs := [("/home/u/docs", ["a.txt", "b.txt"])], files := ["/home/u/note"] },
    config := { admin_hash_file := none, user_hash_file := some credPw1,
                lock_status_file := some [] } }

theorem lock_preconditions_witness :
    ∃ fs1 : FS,
      lock_folder pbPass mfNone wPre "/home/u/docs" "pw1" "ts" = Except.ok
        ({ fs := fs1, config := { wPre.config with lock_status_file := some ([] ++
            [("/home/u/docs", mkEntry "/home/u/docs" "ts" 2)]) } }, true) ∧
      fs1.childrenOf "/home/u/docs" = [] ∧
      fs1.childrenOf (hiddenPathFor "/home/u/docs" "ts") = ["a.txt", "b.txt"] :=
  (lock_preconditions pbPass mfNone wPre "/home/u/docs" "pw1" "ts" credPw1 []
      rfl rfl).2.2.2.2 ["a.txt", "b.txt"] rfl rfl rfl (by decide) rfl (by decide)
    (fun i _ => rfl)

/-- C7: when the registry entry of a folder records a vault path that no longer
exists on disk, unlock authenticates, finds the entry, then fails the vault
existence check with a printed corruption error; the returned state is the input
state unchanged, so the registry entry is left untouched and the folder stays
Locked. -/
theorem unlock_corruption_aborts (pb : Pbkdf2) (mf : String → Bool) (w : World)
    (F pw : String) (cred : Credential) (reg : Registry) (info : LockEntry)
    (hcred : w.config.user_hash_file = some cred)
    (hauth : verify_password pb pw cred = true)
    (hreg : w.config.lock_status_file = some reg)
    (hfind : lookupA reg F = some info)
    (hmiss : w.fs.existsPath info.hidden_path = false) :
    unlock_folder pb mf w F pw = Except.ok (w, false) ∧ containsKey reg F = true := by
  constructor
  · simp [unlock_folder, authenticate_user, hcred, hauth, hreg, hfind, hmiss]
  · rw [containsKey, hfind]
    rfl

/-- World for the corruption witness: the registry references a vault path that is
absent from the filesystem. -/
def wCorrupt : World :=
  { fs := { dirs := [("/home/u/docs", [])], files := [] },
    config := { admin_hash_file := none, user_hash_file := some credPw1,
                lock_status_file := some [("/home/u/docs", mkEntry "/home/u/docs" "t0" 2)] } }

theorem unlock_corruption_aborts_witness :
    unlock_folder pbPass mfNone wCorrupt "/home/u/docs" "pw1"
      = Except.ok (wCorrupt, false) ∧
    containsKey [("/home/u/docs", mkEntry "/home/u/docs" "t0" 2)] "/home/u/docs" = true :=
  unlock_corruption_aborts pbPass mfNone wCorrupt "/home/u/docs" "pw1" credPw1
    [("/home/u/docs", mkEntry "/home/u/docs" "t0" 2)] (mkEntry "/home/u/docs" "t0" 2)
    rfl rfl rfl rfl (by decide)

/-- C10: once unlock has passed authentication, the locked check and the vault
existence check, the registry entry is removed and the registry persisted whatever
the move oracle does — even when every single item move fails; in that case the
items all stay behind in the vault directory, which remains on disk while its only
registry reference is gone. -/
theorem unlock_commits_despite_failures (pb : Pbkdf2) (mf : String → Bool) (w : World)
    (F pw : String) (cred : Credential) (reg : Registry) (info : LockEntry)
    (hcred : w.config.user_hash_file = some cred)
    (hauth : verify_password pb pw cred = true)
    (hreg : w.config.lock_status_file = some reg)
    (hfind : lookupA reg F = some info)
    (hvdir : w.fs.isDir info.hidden_path = true)
    (hnotfile : memb F w.fs.files = false) :
    ∃ fs2 : FS,
      unlock_folder pb mf w F pw = Except.ok
        ({ fs := fs2, config := { w.config with
            lock_status_file := some (removeKey reg F) } }, true) ∧
      containsKey (removeKey reg F) F = false ∧
      ((∀ i ∈ w.fs.childrenOf info.hidden_path, mf i = true) →
        w.fs.childrenOf info.hidden_path ≠ [] →
        fs2.childrenOf info.hidden_path = w.fs.childrenOf info.hidden_path ∧
        fs2.isDir info.hidden_path = true) := by
  have hvex : w.fs.existsPath info.hidden_path = true := isDir_existsPath hvdir
  by_cases hF : w.fs.isDir F = true
  · have hmk : w.fs.mkdirExistOk F = some w.fs := by
      rw [FS.mkdirExistOk, if_pos hF]
    have hrun := unlock_folder_run pb mf w F pw cred reg info w.fs
      hcred hauth hreg hfind hvex hmk hvdir
    refine ⟨unseal_result mf w.fs info.hidden_path F, hrun,
      containsKey_removeKey_self _ _, ?_⟩
    intro hall hne
    have hmv := moveItemsBestEffort_allFail mf info.hidden_path F
      (w.fs.childrenOf info.hidden_path) w.fs hall
    have hres : unseal_result mf w.fs info.hidden_path F = w.fs := by
      rw [unseal_result, hmv]
      have hie : ((w.fs).childrenOf info.hidden_path).isEmpty = false := by
        cases hc : w.fs.childrenOf info.hidden_path
        · exact absurd hc hne
        · rfl
      simp [hie]
    rw [hres]
    exact ⟨rfl, hvdir⟩
  · have hFd : w.fs.isDir F = false := by
      cases hb : w.fs.isDir F
      · rfl
      · exact absurd hb hF
    have hmk : w.fs.mkdirExistOk F = some (w.fs.mkdir F) := by
      simp [FS.mkdirExistOk, hFd, hnotfile]
    have hvdir0 : (w.fs.mkdir F).isDir info.hidden_path = true := by
      rw [mkdir_isDir, hvdir]
      simp
    have hrun := unlock_folder_run pb mf w F pw cred reg info (w.fs.mkdir F)
      hcred hauth hreg hfind hvex hmk hvdir0
    refine ⟨unseal_result mf (w.fs.mkdir F) info.hidden_path F, hrun,
      containsKey_removeKey_self _ _, ?_⟩
    intro hall hne
    have hch : (w.fs.mkdir F).childrenOf info.hidden_path
        = w.fs.childrenOf info.hidden_path := mkdir_childrenOf _ _ _
    have hmv := moveItemsBestEffort_allFail mf info.hidden_path F
      ((w.fs.mkdir F).childrenOf info.hidden_path) (w.fs.mkdir F)
      (by rw [hch]; exact hall)
    have hres : unseal_result mf (w.fs.mkdir F) info.hidden_path F = w.fs.mkdir F := by
      rw [unseal_result, hmv]
      have hie : ((w.fs.mkdir F).childrenOf info.hidden_path).isEmpty = false := by
        rw [hch]
        cases hc : w.fs.childrenOf info.hidden_path
        · exact absurd hc hne
        · rfl
      simp [hie]
    rw [hres]
    exact ⟨by rw [hch], hvdir0⟩

/-- World for the commits-despite-failures witness: one locked folder whose folder
path no longer exists, a vault holding one item, every move failing. -/
def wCommit : World :=
  { fs := { dirs := [("/opt/folder_lock/.config/.locked_data/x_t0", ["a.txt"])],
            files := [] },
    config := { admin_hash_file := none, user_hash_file := some credPw1,
                lock_status_file := some [("/data/x", mkEntry "/data/x" "t0" 1)] } }

theorem unlock_commits_despite_failures_witness :
    ∃ fs2 : FS,
      unlock_folder pbPass mfAll wCommit "/data/x" "pw1" = Except.ok
        ({ fs := fs2, config := { wCommit.config with
            lock_status_file := some (removeKey [("/data/x", mkEntry "/data/x" "t0" 1)]
              "/data/x") } }, true) ∧
      containsKey (removeKey [("/data/x", mkEntry "/data/x" "t0" 1)] "/data/x")
        "/data/x" = false ∧
      ((∀ i ∈ wCommit.fs.childrenOf (mkEntry "/data/x" "t0" 1).hidden_path,
          mfAll i = true) →
        wCommit.fs.childrenOf (mkEntry "/data/x" "t0" 1).hidden_path ≠ [] →
        fs2.childrenOf (mkEntry "/data/x" "t0" 1).hidden_path
          = wCommit.fs.childrenOf (mkEntry "/data/x" "t0" 1).hidden_path ∧
        fs2.isDir (mkEntry "/data/x" "t0" 1).hidden_path = true) :=
  unlock_commits_despite_failures pbPass mfAll wCommit "/data/x" "pw1" credPw1
    [("/data/x", mkEntry "/data/x" "t0" 1)] (mkEntry "/data/x" "t0" 1)
    rfl rfl rfl rfl (by decide) rfl

/-- C2: with a credential stored for a role by the corresponding password-change
operation (setup and the change operations all store `hash_password` of the set
password under a fresh salt), authentication succeeds exactly on the password last
set, and fails on every other string — under the standing collision-freeness
assumption on the PBKDF2 primitive for the salt in use (the source compares raw
PBKDF2 digests, so two colliding passwords would be indistinguishable to it). -/
theorem verify_iff_last_set (pb : Pbkdf2) (w : World) (q salt p : String)
    (hinj : ∀ a b : String, pb a salt 100000 = pb b salt 100000 → a = b) :
    (authenticate_user pb (change_user_password pb w q salt).config p = true ↔ p = q) ∧
    (authenticate_admin pb (change_admin_password pb w q salt).config p = true ↔ p = q) := by
  constructor
  · simp only [authenticate_user, change_user_password, verify_password, hash_password,
      decide_eq_true_eq]
    constructor
    · exact fun h => hinj p q h
    · intro h
      rw [h]
  · simp only [authenticate_admin, change_admin_password, verify_password, hash_password,
      decide_eq_true_eq]
    constructor
    · exact fun h => hinj p q h
    · intro h
      rw [h]

/-- World for the verify witness: arbitrary starting configuration. -/
def wVerify : World :=
  { fs := { dirs := [], files := [] },
    config := { admin_hash_file := none, user_hash_file := none,
                lock_status_file := none } }

theorem verify_iff_last_set_witness :
    (authenticate_user pbPass (change_user_password pbPass wVerify "secret1" "s1").config
        "secret1" = true ↔ ("secret1" : String) = "secret1") ∧
    (authenticate_admin pbPass (change_admin_password pbPass wVerify "secret1" "s1").config
        "secret1" = true ↔ ("secret1" : String) = "secret1") :=
  verify_iff_last_set pbPass wVerify "secret1" "s1" "secret1" (fun _ _ h => h)

theorem bytesToHex_length (l : List Nat) : (bytesToHex l).length = 2 * l.length := by
  induction l with
  | nil => rfl
  | cons b bs ih =>
      rw [bytesToHex, String.length_append, ih]
      have hb : (byteToHex b).length = 2 := rfl
      rw [hb, List.length_cons]
      ring

/-- C8: `hash_password` is a pure function of the password and the salt — for a
fixed pair it always produces the record holding that salt and the PBKDF2-HMAC-SHA256
digest at exactly 100000 iterations of the UTF-8 password and salt; a salt drawn by
`generate_salt` comes from 32 fresh random bytes (hex-encoded to 64 characters); and
two derivations of the same password under distinct salts give distinct hashes,
under the standing assumption that the PBKDF2 primitive does not collide across
salts (the overwhelming-probability part of the claim). -/
theorem hash_derivation (pb : Pbkdf2) (pw salt s1 s2 : String) (r : List Nat)
    (hinj : ∀ a b : String, pb pw a 100000 = pb pw b 100000 → a = b)
    (hs : s1 ≠ s2) (hr : r.length = 32) :
    hash_password pb pw salt = { salt := salt, hash := pb pw salt 100000 } ∧
    (hash_password pb pw s1).hash ≠ (hash_password pb pw s2).hash ∧
    (generate_salt r).length = 64 := by
  refine ⟨rfl, ?_, ?_⟩
  · intro h
    exact hs (hinj s1 s2 h)
  · rw [generate_salt, bytesToHex_length, hr]

theorem hash_derivation_witness :
    hash_password pbSalt "pw" "s" = { salt := "s", hash := pbSalt "pw" "s" 100000 } ∧
    (hash_password pbSalt "pw" "a").hash ≠ (hash_password pbSalt "pw" "b").hash ∧
    (generate_salt (List.replicate 32 0)).length = 64 :=
  hash_derivation pbSalt "pw" "s" "a" "b" (List.replicate 32 0)
    (fun _ _ h => h) (by decide) (by decide)

/-- C9 (implicit): the already-configured check of `initial_setup` looks only at the
admin credential file.  Whenever that file is absent, setup runs to completion: it
reports success, overwrites the user credential file, replaces the registry with an
empty mapping — whatever user credential or lock entries existed before — and leaves
the user filesystem (hence any vault directories) untouched, orphaning the old
entries' vault contents. -/
theorem setup_checks_only_admin (pb : Pbkdf2) (w : World)
    (ap asalt up usalt : String)
    (hadmin : w.config.admin_hash_file = none) :
    (initial_setup pb w ap asalt up usalt).2 = true ∧
    (initial_setup pb w ap asalt up usalt).1.config.admin_hash_file
      = some (hash_password pb ap asalt) ∧
    (initial_setup pb w ap asalt up usalt).1.config.user_hash_file
      = some (hash_password pb up usalt) ∧
    (initial_setup pb w ap asalt up usalt).1.config.lock_status_file = some [] ∧
    (initial_setup pb w ap asalt up usalt).1.fs = w.fs := by
  simp [initial_setup, hadmin]

/-- World for the setup witness: no admin credential, but a user credential and a
nonempty registry already present. -/
def wSetup : World :=
  { fs := { dirs := [("/opt/folder_lock/.config/.locked_data/x_t0", ["a.txt"])],
            files := [] },
    config := { admin_hash_file := none, user_hash_file := some credPw1,
                lock_status_file := some [("/data/x", mkEntry "/data/x" "t0" 1)] } }

theorem setup_checks_only_admin_witness :
    (initial_setup pbPass wSetup "adminpw" "as" "secret1" "us").2 = true ∧
    (initial_setup pbPass wSetup "adminpw" "as" "secret1" "us").1.config.admin_hash_file
      = some (hash_password pbPass "adminpw" "as") ∧
    (initial_setup pbPass wSetup "adminpw" "as" "secret1" "us").1.config.user_hash_file
      = some (hash_password pbPass "secret1" "us") ∧
    (initial_setup pbPass wSetup "adminpw" "as" "secret1" "us").1.config.lock_status_file
      = some [] ∧
    (initial_setup pbPass wSetup "adminpw" "as" "secret1" "us").1.fs = wSetup.fs :=
  setup_checks_only_admin pbPass wSetup "adminpw" "as" "secret1" "us" rfl

/-- C3 counterexample: the claim that every persisted-state write atomically
replaces the file (temporary file in the same directory renamed over the target, old
or new content visible at every moment) is false of the source: the write trace of
the in-place truncate-then-write the source actually performs exposes an
intermediate empty file, which is neither the old nor the new content. -/
theorem save_not_atomic_counterexample :
    ¬ atomicReplace (overwrite_write_trace "OLDSTATE" "NEWSTATE")
      "OLDSTATE" "NEWSTATE" := by
  intro h
  rcases h "" (by simp [overwrite_write_trace]) with h1 | h1
  · exact absurd h1 (by decide)
  · exact absurd h1 (by decide)

/-- C3 amended: every save of the registry and of the credential records rewrites
the target file in place — opening with mode w truncates the file and the new
serialization is then written — so between the truncation and the write an empty
(hence unparsable) file is visible and the replacement is not atomic whenever the
old and new serializations are nonempty (a serialized JSON object never is). -/
theorem save_truncates_then_writes (oldC newC : String)
    (h1 : oldC ≠ "") (h2 : newC ≠ "") :
    "" ∈ overwrite_write_trace oldC newC ∧
    ¬ atomicReplace (overwrite_write_trace oldC newC) oldC newC := by
  constructor
  · simp [overwrite_write_trace]
  · intro h
    rcases h "" (by simp [overwrite_write_trace]) with hh | hh
    · exact h1 hh.symm
    · exact h2 hh.symm

theorem save_truncates_then_writes_witness :
    "" ∈ overwrite_write_trace "OLDREG" "NEWREG" ∧
    ¬ atomicReplace (overwrite_write_trace "OLDREG" "NEWREG") "OLDREG" "NEWREG" :=
  save_truncates_then_writes "OLDREG" "NEWREG" (by decide) (by decide)

/-- C4 amended: when the registry backing file is missing after setup, the
operations that read it do not treat it as an empty mapping — the bare
`open(self.lock_status_file, "r")` raises an uncaught FileNotFoundError, aborting
lock (even with a valid folder and a correct password), unlock and status. -/
theorem missing_registry_raises (pb : Pbkdf2) (mf : String → Bool) (w : World)
    (F pw ts : String) (cred : Credential)
    (hmiss : w.config.lock_status_file = none)
    (hcred : w.config.user_hash_file = some cred)
    (hauth : verify_password pb pw cred = true)
    (hdir : w.fs.isDir F = true) :
    lock_folder pb mf w F pw ts = Except.error errFileNotFound ∧
    unlock_folder pb mf w F pw = Except.error errFileNotFound ∧
    show_lock_status w = Except.error errFileNotFound := by
  refine ⟨?_, ?_, ?_⟩
  · simp [lock_folder, isDir_existsPath hdir, hdir, authenticate_user, hcred, hauth, hmiss]
  · simp [unlock_folder, authenticate_user, hcred, hauth, hmiss]
  · simp [show_lock_status, hmiss]

/-- World for the missing-registry results: credentials installed (setup has
happened), an existing directory, but the registry file absent. -/
def wNoReg : World :=
  { fs := { dirs := [("/home/u/docs", ["a.txt"])], files := [] },
    config := { admin_hash_file := none, user_hash_file := some credPw1,
                lock_status_file := none } }

/-- C4 counterexample: at a concrete post-setup state whose registry file is
missing, lock on an existing directory with the correct password, unlock, and
status all die with the uncaught file-not-found error instead of yielding an empty
mapping. -/
theorem missing_registry_counterexample :
    lock_folder pbPass mfNone wNoReg "/home/u/docs" "pw1" "ts"
      = Except.error errFileNotFound ∧
    unlock_folder pbPass mfNone wNoReg "/home/u/docs" "pw1"
      = Except.error errFileNotFound ∧
    show_lock_status wNoReg = Except.error errFileNotFound := by
  refine ⟨rfl, rfl, rfl⟩

theorem missing_registry_raises_witness :
    lock_folder pbPass mfNone wNoReg "/home/u/docs" "pw1" "t2"
      = Except.error errFileNotFound ∧
    unlock_folder pbPass mfNone wNoReg "/home/u/docs" "pw1"
      = Except.error errFileNotFound ∧
    show_lock_status wNoReg = Except.error errFileNotFound :=
  missing_registry_raises pbPass mfNone wNoReg "/home/u/docs" "pw1" "t2" credPw1
    rfl rfl rfl rfl

theorem moveAllStrict_isDir (mf : String → Bool) (src dst : String) :
    ∀ (items : List String) (fs : FS) (p : String),
      ((moveAllStrict mf fs src dst items).1).isDir p = fs.isDir p
  | [], _, _ => rfl
  | i :: rest, fs, p => by
      simp only [moveAllStrict]
      by_cases h : (mf i || memb i (fs.childrenOf dst)) = true
      · rw [if_pos h]
      · rw [if_neg h, moveAllStrict_isDir mf src dst rest _ p, moveItem_isDir]

theorem moveAllStrict_files (mf : String → Bool) (src dst : String) :
    ∀ (items : List String) (fs : FS),
      ((moveAllStrict mf fs src dst items).1).files = fs.files
  | [], _ => rfl
  | i :: rest, fs => by
      simp only [moveAllStrict]
      by_cases h : (mf i || memb i (fs.childrenOf dst)) = true
      · rw [if_pos h]
      · rw [if_neg h, moveAllStrict_files mf src dst rest _, moveItem_files]

theorem moveAllStrict_childrenOf_other (mf : String → Bool) (src dst p : String)
    (hs : p ≠ src) (hd : p ≠ dst) :
    ∀ (items : List String) (fs : FS),
      ((moveAllStrict mf fs src dst items).1).childrenOf p = fs.childrenOf p
  | [], _ => rfl
  | i :: rest, fs => by
      simp only [moveAllStrict]
      by_cases h : (mf i || memb i (fs.childrenOf dst)) = true
      · rw [if_pos h]
      · rw [if_neg h, moveAllStrict_childrenOf_other mf src dst p hs hd rest _,
          moveItem_childrenOf_other fs src dst i p hs hd]

theorem moveAllStrict_congr (mf : String → Bool) (src dst : String) :
    ∀ (items : List String) (fs fsb : FS),
      fs.isDir dst = true → fsb.isDir dst = true →
      fsb.childrenOf dst = fs.childrenOf dst →
      fsb.childrenOf src = fs.childrenOf src →
      (moveAllStrict mf fsb src dst items).2 = (moveAllStrict mf fs src dst items).2 ∧
      (moveAllStrict mf fsb src dst items).1.childrenOf src
        = (moveAllStrict mf fs src dst items).1.childrenOf src ∧
      (moveAllStrict mf fsb src dst items).1.childrenOf dst
        = (moveAllStrict mf fs src dst items).1.childrenOf dst
  | [], fs, fsb, _, _, hcd, hcs => ⟨rfl, hcs, hcd⟩
  | i :: rest, fs, fsb, hd, hdb, hcd, hcs => by
      simp only [moveAllStrict, hcd, hcs]
      by_cases h : (mf i || memb i (fs.childrenOf dst)) = true
      · rw [if_pos h, if_pos h]
        exact ⟨rfl, hcs, hcd⟩
      · rw [if_neg h, if_neg h]
        have hd2 : (fs.moveItem src dst i).isDir dst = true := by
          rw [moveItem_isDir]; exact hd
        have hd2b : (fsb.moveItem src dst i).isDir dst = true := by
          rw [moveItem_isDir]; exact hdb
        have hcs2 : (fsb.moveItem src dst i).childrenOf src
            = (fs.moveItem src dst i).childrenOf src := by
          rw [moveItem_childrenOf_src, moveItem_childrenOf_src, hcs]
        have hcd2 : (fsb.moveItem src dst i).childrenOf dst
            = (fs.moveItem src dst i).childrenOf dst := by
          by_cases hds : dst = src
          · rw [hds, moveItem_childrenOf_src, moveItem_childrenOf_src, hcs]
          · rw [moveItem_childrenOf_dst _ _ _ _ hds hd,
              moveItem_childrenOf_dst _ _ _ _ hds hdb, hcd]
        exact moveAllStrict_congr mf src dst rest _ _ hd2 hd2b hcd2 hcs2

theorem unlock_all_core_files (mf : String → Bool) (fs1 : FS) (hp k : String) :
    (unlock_all_core mf fs1 hp k).1.files = fs1.files := by
  rw [unlock_all_core]
  by_cases hd : fs1.isDir hp = true
  · rw [if_neg (not_not_intro hd)]
    by_cases hr : (moveAllStrict mf fs1 hp k (fs1.childrenOf hp)).2 = true
    · rw [if_pos hr]
      by_cases hc : ((moveAllStrict mf fs1 hp k (fs1.childrenOf hp)).1.isDir hp
          && ((moveAllStrict mf fs1 hp k (fs1.childrenOf hp)).1.childrenOf hp).isEmpty)
          = true
      · rw [if_pos hc]
        show ((moveAllStrict mf fs1 hp k (fs1.childrenOf hp)).1.rmdir hp).files
          = fs1.files
        rw [rmdir_files, moveAllStrict_files]
      · rw [if_neg hc]
        exact moveAllStrict_files mf hp k _ fs1
    · rw [if_neg hr]
      exact moveAllStrict_files mf hp k _ fs1
  · rw [if_pos hd]

theorem unlock_all_core_frame (mf : String → Bool) (fs1 : FS) (hp k : String)
    (p : String) (hpk : p ≠ k) (hph : p ≠ hp) :
    (unlock_all_core mf fs1 hp k).1.childrenOf p = fs1.childrenOf p ∧
    (unlock_all_core mf fs1 hp k).1.isDir p = fs1.isDir p := by
  rw [unlock_all_core]
  by_cases hd : fs1.isDir hp = true
  · rw [if_neg (not_not_intro hd)]
    by_cases hr : (moveAllStrict mf fs1 hp k (fs1.childrenOf hp)).2 = true
    · rw [if_pos hr]
      by_cases hc : ((moveAllStrict mf fs1 hp k (fs1.childrenOf hp)).1.isDir hp
          && ((moveAllStrict mf fs1 hp k (fs1.childrenOf hp)).1.childrenOf hp).isEmpty)
          = true
      · rw [if_pos hc]
        constructor
        · show ((moveAllStrict mf fs1 hp k (fs1.childrenOf hp)).1.rmdir hp).childrenOf p
            = fs1.childrenOf p
          rw [rmdir_childrenOf_ne _ hph, moveAllStrict_childrenOf_other mf hp k p hph hpk]
        · show ((moveAllStrict mf fs1 hp k (fs1.childrenOf hp)).1.rmdir hp).isDir p
            = fs1.isDir p
          rw [rmdir_isDir_ne _ hph, moveAllStrict_isDir]
      · rw [if_neg hc]
        exact ⟨moveAllStrict_childrenOf_other mf hp k p hph hpk _ fs1,
          moveAllStrict_isDir mf hp k _ fs1 p⟩
    · rw [if_neg hr]
      exact ⟨moveAllStrict_childrenOf_other mf hp k p hph hpk _ fs1,
        moveAllStrict_isDir mf hp k _ fs1 p⟩
  · rw [if_pos hd]
    exact ⟨rfl, rfl⟩

theorem unlock_all_core_congr (mf : String → Bool) (hp k : String) (fs1 fsb : FS)
    (hk : fs1.isDir k = true) (hkb : fsb.isDir k = true)
    (hdhp : fsb.isDir hp = fs1.isDir hp)
    (hchp : fsb.childrenOf hp = fs1.childrenOf hp)
    (hck : fsb.childrenOf k = fs1.childrenOf k) :
    (unlock_all_core mf fsb hp k).2 = (unlock_all_core mf fs1 hp k).2 := by
  rw [unlock_all_core, unlock_all_core, hchp, hdhp]
  by_cases hd : fs1.isDir hp = true
  · rw [if_neg (not_not_intro hd), if_neg (not_not_intro hd)]
    have hcg := moveAllStrict_congr mf hp k (fs1.childrenOf hp) fs1 fsb hk hkb hck hchp
    rw [hcg.1]
    by_cases hr : (moveAllStrict mf fs1 hp k (fs1.childrenOf hp)).2 = true
    · rw [if_pos hr, if_pos hr]
      have hdi : (moveAllStrict mf fsb hp k (fs1.childrenOf hp)).1.isDir hp
          = (moveAllStrict mf fs1 hp k (fs1.childrenOf hp)).1.isDir hp := by
        rw [moveAllStrict_isDir, moveAllStrict_isDir, hdhp]
      rw [hdi, hcg.2.1]
      by_cases hc : ((moveAllStrict mf fs1 hp k (fs1.childrenOf hp)).1.isDir hp
          && ((moveAllStrict mf fs1 hp k (fs1.childrenOf hp)).1.childrenOf hp).isEmpty)
          = true
      · rw [if_pos hc, if_pos hc]
      · rw [if_neg hc, if_neg hc]
    · rw [if_neg hr, if_neg hr]
  · rw [if_pos hd, if_pos hd]

theorem mkdirExistOk_spec (fs : FS) (k : String) (fs1 : FS)
    (hmk : fs.mkdirExistOk k = some fs1) :
    fs1.files = fs.files ∧
    (∀ p, fs1.childrenOf p = fs.childrenOf p) ∧
    (∀ p, fs1.isDir p = (fs.isDir p || decide (k = p))) := by
  rw [FS.mkdirExistOk] at hmk
  by_cases hk : fs.isDir k = true
  · rw [if_pos hk] at hmk
    injection hmk with h
    subst h
    refine ⟨rfl, fun p => rfl, fun p => ?_⟩
    by_cases hkp : k = p
    · rw [← hkp, hk]
      simp
    · simp [hkp]
  · rw [if_neg hk] at hmk
    by_cases hm : memb k fs.files = true
    · rw [if_pos hm] at hmk
      cases hmk
    · rw [if_neg hm] at hmk
      injection hmk with h
      subst h
      exact ⟨mkdir_files fs k, fun p => mkdir_childrenOf fs k p, fun p => mkdir_isDir fs k p⟩

theorem unlock_all_process_eq (mf : String → Bool) (fs : FS) (k : String)
    (info : LockEntry) :
    (fs.existsPath info.hidden_path = false ∧ unlock_all_process mf fs k info = (fs, true)) ∨
    (∃ fs1, fs.existsPath info.hidden_path = true ∧ fs.mkdirExistOk k = some fs1 ∧
      unlock_all_process mf fs k info = unlock_all_core mf fs1 info.hidden_path k) ∨
    (fs.existsPath info.hidden_path = true ∧ fs.mkdirExistOk k = none ∧
      unlock_all_process mf fs k info = (fs, false)) := by
  by_cases hex : fs.existsPath info.hidden_path = true
  · cases hmk : fs.mkdirExistOk k with
    | none =>
        right; right
        exact ⟨hex, rfl, by rw [unlock_all_process, if_pos hex, hmk]⟩
    | some fs1 =>
        right; left
        exact ⟨fs1, hex, rfl, by rw [unlock_all_process, if_pos hex, hmk]⟩
  · left
    have hex2 : fs.existsPath info.hidden_path = false := by
      cases hb : fs.existsPath info.hidden_path
      · rfl
      · exact absurd hb hex
    exact ⟨hex2, by rw [unlock_all_process, if_neg hex]⟩

theorem unlock_all_process_frame (mf : String → Bool) (k : String) (info : LockEntry)
    (fs : FS) :
    (unlock_all_process mf fs k info).1.files = fs.files ∧
    ∀ p, p ≠ k → p ≠ info.hidden_path →
      (unlock_all_process mf fs k info).1.childrenOf p = fs.childrenOf p ∧
      (unlock_all_process mf fs k info).1.isDir p = fs.isDir p := by
  rcases unlock_all_process_eq mf fs k info with ⟨hex, heq⟩ | ⟨fs1, hex, hmk, heq⟩
      | ⟨hex, hmk, heq⟩
  · rw [heq]
    exact ⟨rfl, fun p _ _ => ⟨rfl, rfl⟩⟩
  · rw [heq]
    obtain ⟨hf, hc, hd⟩ := mkdirExistOk_spec fs k fs1 hmk
    constructor
    · rw [unlock_all_core_files, hf]
    · intro p hpk hph
      obtain ⟨h1, h2⟩ := unlock_all_core_frame mf fs1 info.hidden_path k p hpk hph
      refine ⟨?_, ?_⟩
      · rw [h1, hc]
      · rw [h2, hd]
        have hkp : decide (k = p) = false := by
          rw [decide_eq_false_iff_not]
          exact fun hh => hpk hh.symm
        rw [hkp, Bool.or_false]
  · rw [heq]
    exact ⟨rfl, fun p _ _ => ⟨rfl, rfl⟩⟩

theorem unlock_all_process_congr (mf : String → Bool) (k : String) (info : LockEntry)
    (fs fsb : FS)
    (hfiles : fsb.files = fs.files)
    (hchp : fsb.childrenOf info.hidden_path = fs.childrenOf info.hidden_path)
    (hdhp : fsb.isDir info.hidden_path = fs.isDir info.hidden_path)
    (hdk : fsb.isDir k = fs.isDir k)
    (hck : fsb.childrenOf k = fs.childrenOf k) :
    (unlock_all_process mf fsb k info).2 = (unlock_all_process mf fs k info).2 := by
  have hexeq : fsb.existsPath info.hidden_path = fs.existsPath info.hidden_path := by
    rw [FS.existsPath, FS.existsPath, hdhp, hfiles]
  rw [unlock_all_process, unlock_all_process, hexeq]
  by_cases hex : fs.existsPath info.hidden_path = true
  · rw [if_pos hex, if_pos hex, FS.mkdirExistOk, FS.mkdirExistOk, hdk, hfiles]
    by_cases hk : fs.isDir k = true
    · rw [if_pos hk, if_pos hk]
      show (unlock_all_core mf fsb info.hidden_path k).2
        = (unlock_all_core mf fs info.hidden_path k).2
      exact unlock_all_core_congr mf info.hidden_path k fs fsb hk (by rw [hdk]; exact hk)
        hdhp hchp hck
    · rw [if_neg hk, if_neg hk]
      by_cases hm : memb k fs.files = true
      · rw [if_pos hm, if_pos hm]
      · rw [if_neg hm, if_neg hm]
        show (unlock_all_core mf (fsb.mkdir k) info.hidden_path k).2
          = (unlock_all_core mf (fs.mkdir k) info.hidden_path k).2
        have hk1 : (fs.mkdir k).isDir k = true := by
          rw [mkdir_isDir]
          simp
        have hk1b : (fsb.mkdir k).isDir k = true := by
          rw [mkdir_isDir]
          simp
        exact unlock_all_core_congr mf info.hidden_path k (fs.mkdir k) (fsb.mkdir k)
          hk1 hk1b
          (by rw [mkdir_isDir, mkdir_isDir, hdhp])
          (by rw [mkdir_childrenOf, mkdir_childrenOf, hchp])
          (by rw [mkdir_childrenOf, mkdir_childrenOf, hck])
  · rw [if_neg hex, if_neg hex]

/-- Full disjointness of two registry entries: distinct folder keys and vault paths,
pairwise.  Registry invariants give distinct keys; vault names are distinct by
construction (timestamped, tool-owned), so this holds of every registry the tool
itself builds. -/
def pairDisj (e eb : String × LockEntry) : Prop :=
  e.1 ≠ eb.1 ∧ e.1 ≠ eb.2.hidden_path ∧ e.2.hidden_path ≠ eb.1 ∧
    e.2.hidden_path ≠ eb.2.hidden_path

instance (e eb : String × LockEntry) : Decidable (pairDisj e eb) :=
  inferInstanceAs (Decidable (e.1 ≠ eb.1 ∧ e.1 ≠ eb.2.hidden_path ∧
    e.2.hidden_path ≠ eb.1 ∧ e.2.hidden_path ≠ eb.2.hidden_path))

theorem unlockAllLoop_filter (mf : String → Bool) :
    ∀ (entries : Registry) (fs : FS), List.Pairwise pairDisj entries →
      (unlockAllLoop mf fs entries).2
        = entries.filter (fun e => !(unlock_all_process mf fs e.1 e.2).2)
  | [], _, _ => rfl
  | (k, info) :: rest, fs, hpw => by
      have hrest : List.Pairwise pairDisj rest := (List.pairwise_cons.mp hpw).2
      have hhead : ∀ e ∈ rest, pairDisj (k, info) e := (List.pairwise_cons.mp hpw).1
      have hcong : ∀ e ∈ rest,
          (!(unlock_all_process mf (unlock_all_process mf fs k info).1 e.1 e.2).2)
            = (!(unlock_all_process mf fs e.1 e.2).2) := by
        intro e he
        have hd := hhead e he
        have hfr := unlock_all_process_frame mf k info fs
        have hk1 := hfr.2 e.1 (Ne.symm hd.1) (Ne.symm hd.2.2.1)
        have hp1 := hfr.2 e.2.hidden_path (Ne.symm hd.2.1) (Ne.symm hd.2.2.2)
        have hc := unlock_all_process_congr mf e.1 e.2 fs
          ((unlock_all_process mf fs k info).1) hfr.1 hp1.1 hp1.2 hk1.2 hk1.1
        rw [hc]
      simp only [unlockAllLoop]
      rw [unlockAllLoop_filter mf rest (unlock_all_process mf fs k info).1 hrest,
        List.filter_congr hcong, List.filter_cons]
      by_cases hk : (unlock_all_process mf fs k info).2 = true
      · rw [if_pos hk, hk]
        simp
      · have hkf : (unlock_all_process mf fs k info).2 = false := by
          cases hb : (unlock_all_process mf fs k info).2
          · rfl
          · exact absurd hb hk
        rw [hkf]
        simp

/-- C5 counterexample world: one locked folder whose vault holds the items a, b, c,
with the move oracle failing exactly on b. -/
def entryCex : LockEntry := { hidden_path := "/v", locked_at := "t", items_count := 3 }

def mfB : String → Bool := fun i => decide (i = "b")

def wAllCex : World :=
  { fs := { dirs := [("/v", ["a", "b", "c"]), ("/f", [])], files := [] },
    config := { admin_hash_file := some credPw1, user_hash_file := some credPw1,
                lock_status_file := some [("/f", entryCex)] } }

/-- Resulting world of running unlock-all on the counterexample world. -/
def wAllCexOut : World :=
  { fs := { dirs := [("/v", ["b", "c"]), ("/f", ["a"])], files := [] },
    config := { admin_hash_file := some credPw1, user_hash_file := some credPw1,
                lock_status_file := some [("/f", entryCex)] } }

/-- C5 counterexample: the claim that `unlock_all` unseals each entry best-effort
per item is false of the source.  The inner move loop of `unlock_all_folders` has no
per-item handler, so when the move of b raises, the item c — whose own move does not
fail — is never attempted: after the run, a has been restored but b and c are still
in the vault, and the entry stays in the registry.  Per-item best-effort semantics
(the ones `unlock_folder` actually has) would have restored both a and c. -/
theorem unlock_all_not_per_item_counterexample :
    mfB "c" = false ∧
    unlock_all_folders mfB wAllCex "yes" = Except.ok wAllCexOut ∧
    wAllCexOut.fs.childrenOf "/f" = ["a"] ∧
    wAllCexOut.fs.childrenOf "/v" = ["b", "c"] ∧
    wAllCexOut.config.lock_status_file = some [("/f", entryCex)] := by
  refine ⟨by decide, rfl, by decide, by decide, rfl⟩

/-- C5 amended: after admin authentication and confirmation, `unlock_all_folders`
iterates every registry entry; each entry is processed best-effort per entry, not
per item — the first failing item move aborts that entry, leaving the already-moved
items moved, the remaining items in the vault and the entry in the registry — while
an entry whose whole processing raises nothing (including the vault-missing case,
where the entry is dropped without restoring anything) is removed; the resulting
mapping, here computed as a filter keeping exactly the entries whose processing
failed, is persisted once at the end.  Stated for registries whose folder keys and
vault paths are pairwise distinct, which every tool-built registry satisfies. -/
theorem unlock_all_per_entry (pb : Pbkdf2) (mf : String → Bool) (w : World)
    (apw conf : String) (acred : Credential) (entries : Registry)
    (hacred : w.config.admin_hash_file = some acred)
    (hauth : verify_password pb apw acred = true)
    (hconf : toLowerStr conf = "yes")
    (hreg : w.config.lock_status_file = some entries)
    (hdisj : List.Pairwise pairDisj entries) :
    ∃ fs1 : FS,
      admin_unlock_all pb mf w apw conf = Except.ok
        { fs := fs1, config := { w.config with lock_status_file :=
            (some (entries.filter (fun e => !(unlock_all_process mf w.fs e.1 e.2).2))) } } := by
  refine ⟨(unlockAllLoop mf w.fs entries).1, ?_⟩
  simp [admin_unlock_all, authenticate_admin, hacred, hauth, unlock_all_folders, hconf,
    hreg, unlockAllLoop_filter mf entries w.fs hdisj]

/-- C5 witness world: three disjoint entries — one fully restorable, one with a
failing item, one with a missing vault. -/
def entryW1 : LockEntry := { hidden_path := "/v1", locked_at := "t", items_count := 1 }

def entryW2 : LockEntry := { hidden_path := "/v2", locked_at := "t", items_count := 2 }

def entryW3 : LockEntry := { hidden_path := "/v3", locked_at := "t", items_count := 0 }

def mfY : String → Bool := fun i => decide (i = "y")

def wAllWit : World :=
  { fs := { dirs := [("/v1", ["x"]), ("/f1", []), ("/v2", ["y", "z"]), ("/f2", [])],
            files := [] },
    config := { admin_hash_file := some credPw1, user_hash_file := none,
                lock_status_file := some
                  [("/f1", entryW1), ("/f2", entryW2), ("/f3", entryW3)] } }

theorem unlock_all_per_entry_witness :
    ∃ fs1 : FS,
      admin_unlock_all pbPass mfY wAllWit "pw1" "YES" = Except.ok
        { fs := fs1, config := { wAllWit.config with lock_status_file :=
            (some ([("/f1", entryW1), ("/f2", entryW2), ("/f3", entryW3)].filter
              (fun e => !(unlock_all_process mfY wAllWit.fs e.1 e.2).2))) } } :=
  unlock_all_per_entry pbPass mfY wAllWit "pw1" "YES" credPw1
    [("/f1", entryW1), ("/f2", entryW2), ("/f3", entryW3)]
    rfl rfl (by decide) rfl (by decide)
